import Mathlib

set_option maxHeartbeats 1000000

namespace LiveMood

/-! # Shallow embedding of `backend/main.py`

The core of the repository is the resilient inference caller
`_generate_affirmation` together with the model-list builder
`_parse_model_list`.  We embed the retry/fallback control flow as pure
functions over an abstract environment `String → Nat → CallResult` that
says, for each model identifier and attempt index, what the network call
`requests.post(...)` / `response.json()` produces.  The orchestrator is
modelled as a function returning its terminal result together with the
trace of observable events (calls made and backoff sleeps). -/

/-- Drop leading whitespace characters, modelling one side of Python's
`str.strip()`. -/
def dropLeadingSpace : List Char → List Char
  | [] => []
  | c :: cs => if c.isWhitespace then dropLeadingSpace cs else c :: cs

/-- Python `str.strip()`: remove whitespace from both ends. -/
def pyStrip (s : String) : String :=
  String.mk ((dropLeadingSpace ((dropLeadingSpace s.data).reverse)).reverse)

/-- Helper for `pySplitComma`: `acc` holds the current chunk reversed. -/
def splitCommaAux : List Char → List Char → List String
  | [], acc => [String.mk acc.reverse]
  | c :: cs, acc =>
    if c = ',' then String.mk acc.reverse :: splitCommaAux cs []
    else splitCommaAux cs (c :: acc)

/-- Python `str.split(",")`: split on every comma, keeping empty chunks. -/
def pySplitComma (s : String) : List String :=
  splitCommaAux s.data []

/-- Shallow JSON values, modelling the parsed `response.json()` payload. -/
inductive Json where
  | null
  | bool (b : Bool)
  | num (n : Int)
  | str (s : String)
  | arr (items : List Json)
  | obj (fields : List (String × Json))

/-- `isinstance(result, dict)` -/
def Json.isObj : Json → Bool
  | .obj _ => true
  | _ => false

/-- Python truthiness of a JSON value. -/
def Json.truthy : Json → Bool
  | .null => false
  | .bool b => b
  | .num n => n != 0
  | .str s => s != ""
  | .arr items => !items.isEmpty
  | .obj fields => !fields.isEmpty

/-- `dict.get(key)`: `some` value on a dict holding that key, else `none`
(also `none` on a non-dict, where Python would raise instead; call sites
only use this after an `isObj` test, mirroring the source's guards). -/
def Json.get? : Json → String → Option Json
  | .obj fields, key => (fields.find? (fun kv => kv.1 == key)).map (fun kv => kv.2)
  | _, _ => none

/-- Python `x.get(k) or d`: the looked-up value when present and truthy,
otherwise the default `d`. -/
def orDefault (x : Option Json) (d : Json) : Json :=
  match x with
  | some v => if v.truthy then v else d
  | none => d

/-- The exceptions the source's `try` block can observe.  `httpError`
is `requests.exceptions.HTTPError` (whose response, and hence status
code, may be absent); the remaining constructors cover transport errors
raised by `requests.post`, `RuntimeError(result["error"])`,
`ValueError("Empty response from Hugging Face")`, and attribute/type
errors from indexing an unexpectedly-shaped payload. -/
inductive Exc where
  | httpError (status : Option Nat)
  | timeoutError
  | connectionError
  | jsonDecodeError
  | runtimeError
  | valueError
  | attributeError
deriving DecidableEq

/-- What one network call produces: either an HTTP response whose body
parsed as JSON, or an exception raised before `raise_for_status`. -/
inductive CallResult where
  | response (status : Nat) (body : Json)
  | raised (e : Exc)

/-- Lines 186–191 of the source: extract
`(result.get("choices") or [])[0].get("message") or {}` and then
`(message.get("content") or "").strip()`.  `.error ()` marks the shapes
where Python raises (subscripting or `.get` on a non-dict, `.strip()` on
a non-string); `.ok` is the computed `text`, possibly `""`. -/
def extractText (result : Json) : Except Unit String :=
  match result with
  | .obj _ =>
    match orDefault (result.get? "choices") (.arr []) with
    | .arr [] => .ok ""
    | .arr (c0 :: _) =>
      match c0 with
      | .obj _ =>
        match orDefault (c0.get? "message") (.obj []) with
        | .obj msgFields =>
          match orDefault ((Json.obj msgFields).get? "content") (.str "") with
          | .str s => .ok (pyStrip s)
          | _ => .error ()
        | _ => .error ()
      | _ => .error ()
    | _ => .error ()
  | _ => .ok ""

/-- One full attempt body (source lines 162–197): `raise_for_status`
(raises `HTTPError` for status 400–599), the upstream `error`-field
check, text extraction, and the empty-text check; the result is either
the returned text or the exception the surrounding `except` clauses see. -/
def attemptOnce : CallResult → Except Exc String
  | .raised e => .error e
  | .response status body =>
    if 400 ≤ status ∧ status < 600 then .error (.httpError (some status))
    else if body.isObj && ((body.get? "error").getD Json.null).truthy then
      .error .runtimeError
    else
      match extractText body with
      | .error _ => .error .attributeError
      | .ok t => if t = "" then .error .valueError else .ok t

/-- The three retry dispositions of the error classifier. -/
inductive Disposition where
  | abort
  | nextModel
  | retry
deriving DecidableEq

/-- Source lines 199–216: `401/403 → raise` (abort), `404/410 → break`
to the next model, anything else — including an `HTTPError` with no
response and every non-`HTTPError` exception — retries with backoff. -/
def classify : Exc → Disposition
  | .httpError (some s) =>
    if s = 401 ∨ s = 403 then .abort
    else if s = 404 ∨ s = 410 then .nextModel
    else .retry
  | _ => .retry

/-- `backoff_delays = [2, 4, 8]` (source line 150). -/
def backoff_delays : List Nat := [2, 4, 8]

/-- Observable events of one orchestration run: an inference call on a
model at an attempt index, or a `time.sleep` of so many seconds. -/
inductive Event where
  | call (model : String) (attempt : Nat)
  | sleep (seconds : Nat)
deriving DecidableEq

/-- How the per-model attempt loop ends: a returned text, a re-raised
abort exception, or falling through to the next model carrying the
updated `last_error`. -/
inductive ModelOutcome where
  | success (text : String)
  | aborted (e : Exc)
  | moveOn (last : Option Exc)
deriving DecidableEq

/-- The inner `for attempt in range(3)` loop (source lines 158–226) for
one model, run over the given list of remaining attempt indices, with
`last` the incoming `last_error`.  Returns the loop outcome and the
trace of calls and sleeps it performs. -/
def runAttempts (env : String → Nat → CallResult) (model : String)
    (last : Option Exc) : List Nat → ModelOutcome × List Event
  | [] => (.moveOn last, [])
  | a :: rest =>
    match attemptOnce (env model a) with
    | .ok t => (.success t, [.call model a])
    | .error e =>
      match classify e with
      | .abort => (.aborted e, [.call model a])
      | .nextModel => (.moveOn (some e), [.call model a])
      | .retry =>
        if a < 2 then
          ((runAttempts env model (some e) rest).1,
            .call model a :: .sleep (backoff_delays.getD a 0) ::
              (runAttempts env model (some e) rest).2)
        else (.moveOn (some e), [.call model a])

/-- Terminal result of a whole orchestration run: the returned text, a
raised exception (an abort or the final `raise last_error`), or the
generic `RuntimeError("AI request failed after all models attempted")`
raised when `last_error` is still `None`. -/
inductive RunResult where
  | success (text : String)
  | failure (e : Exc)
  | exhausted
deriving DecidableEq

/-- The outer `for model in models_to_try` loop (source lines 153–230),
threading `last_error`, ending with `raise last_error or RuntimeError(...)`. -/
def runModels (env : String → Nat → CallResult)
    (last : Option Exc) : List String → RunResult × List Event
  | [] => ((match last with | some e => .failure e | none => .exhausted), [])
  | m :: ms =>
    match runAttempts env m last [0, 1, 2] with
    | (.success t, evs) => (.success t, evs)
    | (.aborted e, evs) => (.failure e, evs)
    | (.moveOn last2, evs) =>
      ((runModels env last2 ms).1, evs ++ (runModels env last2 ms).2)

/-- One orchestration run over a candidate list, with `last_error`
initially `None`. -/
def generateRun (env : String → Nat → CallResult) (models : List String) :
    RunResult × List Event :=
  runModels env none models

/-- The fallback entries of `_parse_model_list` (source line 36): split
the raw string on commas, trim each entry, drop empty ones; Python's
`if fallback_raw:` also drops a missing or empty raw string. -/
def fallbackEntries : Option String → List String
  | none => []
  | some raw =>
    if raw = "" then []
    else ((pySplitComma raw).map pyStrip).filter (fun s => s ≠ "")

/-- The dedup loop of `_parse_model_list` (source lines 38–43): keep an
element when it is not in `seen`, then add it to `seen`. -/
def dedupKeepFirst (seen : List String) : List String → List String
  | [] => []
  | m :: ms =>
    if m ∈ seen then dedupKeepFirst seen ms
    else m :: dedupKeepFirst (m :: seen) ms

/-- `_parse_model_list` (source lines 33–44): primary first, then the
fallback entries, duplicates removed keeping the first occurrence. -/
def _parse_model_list (primary : String) (fallback_raw : Option String) :
    List String :=
  dedupKeepFirst [] (primary :: fallbackEntries fallback_raw)

/-- `_generate_affirmation`'s model selection plus retry loop (source
lines 140–230), abstracted over the network environment. -/
def _generate_affirmation (env : String → Nat → CallResult)
    (primary : String) (fallback_raw : Option String) :
    RunResult × List Event :=
  generateRun env (_parse_model_list primary fallback_raw)

/-- Spec-side rendering of the model-list contract: keep each entry's
first occurrence, silently dropping any later entry equal to one
already present. -/
def specFirstSeen : List String → List String
  | [] => []
  | x :: xs => x :: (specFirstSeen xs).filter (fun y => y ≠ x)

/-- Whether an event is an inference call on model `m`. -/
def isCallTo (m : String) : Event → Bool
  | .call m2 _ => m2 == m
  | _ => false

/-- Number of inference calls on model `m` in a trace. -/
def countCalls (m : String) (evs : List Event) : Nat :=
  (evs.filter (isCallTo m)).length

/-! ## Properties of the model-list builder -/

theorem dedupKeepFirst_mem (x : String) (l : List String) :
    ∀ seen, x ∈ dedupKeepFirst seen l ↔ x ∈ l ∧ x ∉ seen := by
  induction l with
  | nil => intro seen; simp [dedupKeepFirst]
  | cons m ms ih =>
    intro seen
    by_cases h : m ∈ seen
    · simp only [dedupKeepFirst, if_pos h, ih, List.mem_cons]
      constructor
      · rintro ⟨hx, hns⟩; exact ⟨Or.inr hx, hns⟩
      · rintro ⟨hx | hx, hns⟩
        · subst hx; exact absurd h hns
        · exact ⟨hx, hns⟩
    · simp only [dedupKeepFirst, if_neg h, List.mem_cons, ih]
      constructor
      · rintro (rfl | ⟨hx, hns⟩)
        · exact ⟨Or.inl rfl, h⟩
        · exact ⟨Or.inr hx, fun hc => hns (Or.inr hc)⟩
      · rintro ⟨rfl | hx, hns⟩
        · exact Or.inl rfl
        · by_cases hxm : x = m
          · exact Or.inl hxm
          · exact Or.inr ⟨hx, fun hc => hc.elim hxm hns⟩

theorem dedupKeepFirst_nodup (l : List String) :
    ∀ seen, (dedupKeepFirst seen l).Nodup := by
  induction l with
  | nil => intro seen; simp [dedupKeepFirst]
  | cons m ms ih =>
    intro seen
    by_cases h : m ∈ seen
    · simpa only [dedupKeepFirst, if_pos h] using ih seen
    · simp only [dedupKeepFirst, if_neg h, List.nodup_cons]
      refine ⟨fun hc => ?_, ih _⟩
      exact ((dedupKeepFirst_mem m ms _).mp hc).2 (List.mem_cons_self m seen)

theorem dedupKeepFirst_eq_spec (l : List String) :
    ∀ seen, dedupKeepFirst seen l =
      (specFirstSeen l).filter (fun y => decide (y ∉ seen)) := by
  induction l with
  | nil => intro seen; simp [dedupKeepFirst, specFirstSeen]
  | cons m ms ih =>
    intro seen
    by_cases h : m ∈ seen
    · simp only [dedupKeepFirst, if_pos h, ih, specFirstSeen]
      rw [List.filter_cons_of_neg (by simp [h]), List.filter_filter]
      apply List.filter_congr
      intro a _
      by_cases ha : a ∈ seen
      · simp [ha]
      · have ham : a ≠ m := fun hc => ha (hc ▸ h)
        simp [ha, ham]
    · simp only [dedupKeepFirst, if_neg h, ih, specFirstSeen]
      rw [List.filter_cons_of_pos (by simp [h]), List.filter_filter]
      congr 1
      apply List.filter_congr
      intro a _
      by_cases ham : a = m
      · subst ham; simp
      · by_cases ha : a ∈ seen <;> simp [ha, ham, List.mem_cons]

theorem parse_model_list_cons (primary : String) (fallback_raw : Option String) :
    _parse_model_list primary fallback_raw =
      primary :: dedupKeepFirst [primary] (fallbackEntries fallback_raw) := by
  simp [_parse_model_list, dedupKeepFirst]

example : _parse_model_list "m1" (some "m2,m1,m3") = ["m1", "m2", "m3"] := by
  decide

/-- C5: for every non-empty primary identifier and optional fallback
string, the built candidate list is non-empty, starts with the primary,
has no duplicates, contains exactly the primary and the trimmed
non-empty fallback entries, equals the spec's first-occurrence-wins
dedup of primary-then-fallback order, and the worked example
`"m1"`/`"m2,m1,m3"` yields `[m1, m2, m3]`. -/
theorem C5_model_list_builder (primary : String) (fallback_raw : Option String)
    (_hp : primary ≠ "") :
    _parse_model_list primary fallback_raw ≠ [] ∧
    (_parse_model_list primary fallback_raw).head? = some primary ∧
    (_parse_model_list primary fallback_raw).Nodup ∧
    (∀ x, x ∈ _parse_model_list primary fallback_raw ↔
        x ∈ primary :: fallbackEntries fallback_raw) ∧
    _parse_model_list primary fallback_raw =
      specFirstSeen (primary :: fallbackEntries fallback_raw) ∧
    _parse_model_list "m1" (some "m2,m1,m3") = ["m1", "m2", "m3"] := by
  refine ⟨?_, ?_, dedupKeepFirst_nodup _ _, ?_, ?_, by decide⟩
  · rw [parse_model_list_cons]; simp
  · rw [parse_model_list_cons]; rfl
  · intro x
    simp only [_parse_model_list]
    rw [dedupKeepFirst_mem]
    simp
  · simp only [_parse_model_list]
    rw [dedupKeepFirst_eq_spec]
    refine List.filter_eq_self.mpr ?_
    intro a _
    simp

/-- C5 witness: the contract evaluated at primary `"a"` with fallback
`" b , a "`. -/
theorem C5_model_list_builder_witness :
    _parse_model_list "a" (some " b , a ") ≠ [] ∧
    (_parse_model_list "a" (some " b , a ")).head? = some "a" ∧
    (_parse_model_list "a" (some " b , a ")).Nodup ∧
    (∀ x, x ∈ _parse_model_list "a" (some " b , a ") ↔
        x ∈ "a" :: fallbackEntries (some " b , a ")) ∧
    _parse_model_list "a" (some " b , a ") =
      specFirstSeen ("a" :: fallbackEntries (some " b , a ")) ∧
    _parse_model_list "m1" (some "m2,m1,m3") = ["m1", "m2", "m3"] :=
  C5_model_list_builder "a" (some " b , a ") (by decide)

/-! ## Trace structure of the retry orchestrator -/

theorem head?_decomp {α : Type} {l : List α} {x : α} (h : l.head? = some x) :
    ∃ t, l = x :: t := by
  cases l with
  | nil => simp at h
  | cons y t =>
    simp only [List.head?_cons, Option.some.injEq] at h
    exact ⟨t, by rw [h]⟩

theorem runAttempts_head? (env : String → Nat → CallResult) (model : String)
    (last : Option Exc) (a : Nat) (rest : List Nat) :
    (runAttempts env model last (a :: rest)).2.head? = some (Event.call model a) := by
  simp only [runAttempts]
  split
  · rfl
  · split
    · rfl
    · rfl
    · split
      · rfl
      · rfl

theorem runAttempts_trace_head (env : String → Nat → CallResult) (model : String)
    (last : Option Exc) (a : Nat) (rest : List Nat) :
    ∃ t, (runAttempts env model last (a :: rest)).2 = Event.call model a :: t :=
  head?_decomp (runAttempts_head? env model last a rest)

theorem runAttempts_mem_call (env : String → Nat → CallResult) (model : String) :
    ∀ (attempts : List Nat) (last : Option Exc) (m : String) (a : Nat),
      Event.call m a ∈ (runAttempts env model last attempts).2 →
      m = model ∧ a ∈ attempts := by
  intro attempts
  induction attempts with
  | nil => intro last m a h; simp [runAttempts] at h
  | cons a0 rest ih =>
    intro last m a h
    simp only [runAttempts] at h
    split at h
    · simp only [List.mem_singleton, Event.call.injEq] at h
      exact ⟨h.1, by simp [h.2]⟩
    · split at h
      · simp only [List.mem_singleton, Event.call.injEq] at h
        exact ⟨h.1, by simp [h.2]⟩
      · simp only [List.mem_singleton, Event.call.injEq] at h
        exact ⟨h.1, by simp [h.2]⟩
      · split at h
        · simp only [List.mem_cons, Event.call.injEq] at h
          rcases h with ⟨h1, h2⟩ | h | h
          · exact ⟨h1, by simp [h2]⟩
          · exact absurd h (by simp)
          · rcases ih _ _ _ h with ⟨rfl, hmem⟩
            exact ⟨rfl, List.mem_cons_of_mem _ hmem⟩
        · simp only [List.mem_singleton, Event.call.injEq] at h
          exact ⟨h.1, by simp [h.2]⟩

/-- Splitting the inner loop's trace at a call with a decisive outcome:
a successful call, an abort-classified failure, or a
next-model-classified failure each end the loop right there, with the
corresponding loop outcome. -/
theorem runAttempts_split (env : String → Nat → CallResult) (model : String) :
    ∀ (attempts : List Nat) (last : Option Exc) (pre : List Event) (a : Nat)
      (tail : List Event),
      (runAttempts env model last attempts).2 = pre ++ Event.call model a :: tail →
      ((∀ t, attemptOnce (env model a) = .ok t →
          tail = [] ∧ (runAttempts env model last attempts).1 = .success t) ∧
       (∀ e, attemptOnce (env model a) = .error e → classify e = .abort →
          tail = [] ∧ (runAttempts env model last attempts).1 = .aborted e) ∧
       (∀ e, attemptOnce (env model a) = .error e → classify e = .nextModel →
          tail = [] ∧ (runAttempts env model last attempts).1 = .moveOn (some e))) := by
  intro attempts
  induction attempts with
  | nil =>
    intro last pre a tail h
    rw [runAttempts] at h
    cases pre <;> simp_all
  | cons a0 rest ih =>
    intro last pre a tail h
    rcases hc : attemptOnce (env model a0) with e | t
    · rcases hd : classify e with _ | _ | _
      · -- abort branch: trace is the single aborting call
        simp only [runAttempts, hc, hd] at h ⊢
        cases pre with
        | nil =>
          simp only [List.nil_append, List.cons.injEq, Event.call.injEq] at h
          obtain ⟨⟨-, ha⟩, htail⟩ := h
          subst ha
          refine ⟨?_, ?_, ?_⟩
          · intro t2 ht2; rw [hc] at ht2; cases ht2
          · intro e2 he2 _
            rw [hc] at he2
            cases he2
            exact ⟨htail.symm, rfl⟩
          · intro e2 he2 hcl2
            rw [hc] at he2
            cases he2
            rw [hd] at hcl2
            simp at hcl2
        | cons p ps =>
          simp only [List.cons_append, List.cons.injEq] at h
          obtain ⟨-, h2⟩ := h
          simp at h2
      · -- nextModel branch: trace is the single skipping call
        simp only [runAttempts, hc, hd] at h ⊢
        cases pre with
        | nil =>
          simp only [List.nil_append, List.cons.injEq, Event.call.injEq] at h
          obtain ⟨⟨-, ha⟩, htail⟩ := h
          subst ha
          refine ⟨?_, ?_, ?_⟩
          · intro t2 ht2; rw [hc] at ht2; cases ht2
          · intro e2 he2 hcl2
            rw [hc] at he2
            cases he2
            rw [hd] at hcl2
            simp at hcl2
          · intro e2 he2 _
            rw [hc] at he2
            cases he2
            exact ⟨htail.symm, rfl⟩
        | cons p ps =>
          simp only [List.cons_append, List.cons.injEq] at h
          obtain ⟨-, h2⟩ := h
          simp at h2
      · -- retry branch
        by_cases ha0 : a0 < 2
        · simp only [runAttempts, hc, hd, if_pos ha0] at h ⊢
          cases pre with
          | nil =>
            simp only [List.nil_append, List.cons.injEq, Event.call.injEq] at h
            obtain ⟨⟨-, ha⟩, -⟩ := h
            subst ha
            refine ⟨?_, ?_, ?_⟩
            · intro t2 ht2; rw [hc] at ht2; cases ht2
            · intro e2 he2 hcl2
              rw [hc] at he2
              cases he2
              rw [hd] at hcl2
              simp at hcl2
            · intro e2 he2 hcl2
              rw [hc] at he2
              cases he2
              rw [hd] at hcl2
              simp at hcl2
          | cons p ps =>
            simp only [List.cons_append, List.cons.injEq] at h
            obtain ⟨-, h⟩ := h
            cases ps with
            | nil =>
              simp only [List.nil_append, List.cons.injEq] at h
              exact absurd h.1 (by simp)
            | cons q qs =>
              simp only [List.cons_append, List.cons.injEq] at h
              exact ih (some e) qs a tail h.2
        · simp only [runAttempts, hc, hd, if_neg ha0] at h ⊢
          cases pre with
          | nil =>
            simp only [List.nil_append, List.cons.injEq, Event.call.injEq] at h
            obtain ⟨⟨-, ha⟩, -⟩ := h
            subst ha
            refine ⟨?_, ?_, ?_⟩
            · intro t2 ht2; rw [hc] at ht2; cases ht2
            · intro e2 he2 hcl2
              rw [hc] at he2
              cases he2
              rw [hd] at hcl2
              simp at hcl2
            · intro e2 he2 hcl2
              rw [hc] at he2
              cases he2
              rw [hd] at hcl2
              simp at hcl2
          | cons p ps =>
            simp only [List.cons_append, List.cons.injEq] at h
            obtain ⟨-, h2⟩ := h
            simp at h2
    · -- successful call: trace is the single call, outcome is its text
      simp only [runAttempts, hc] at h ⊢
      cases pre with
      | nil =>
        simp only [List.nil_append, List.cons.injEq, Event.call.injEq] at h
        obtain ⟨⟨-, ha⟩, htail⟩ := h
        subst ha
        refine ⟨?_, ?_, ?_⟩
        · intro t2 ht2
          rw [hc] at ht2
          cases ht2
          exact ⟨htail.symm, rfl⟩
        · intro e2 he2 _
          rw [hc] at he2
          cases he2
        · intro e2 he2 _
          rw [hc] at he2
          cases he2
      | cons p ps =>
        simp only [List.cons_append, List.cons.injEq] at h
        obtain ⟨-, h2⟩ := h
        simp at h2

theorem runModels_cons_success (env : String → Nat → CallResult) (m0 : String)
    (ms : List String) (last : Option Exc) (t : String)
    (h : (runAttempts env m0 last [0, 1, 2]).1 = .success t) :
    runModels env last (m0 :: ms) =
      (.success t, (runAttempts env m0 last [0, 1, 2]).2) := by
  simp only [runModels]
  rcases hr : runAttempts env m0 last [0, 1, 2] with ⟨out, evs⟩
  rw [hr] at h
  simp only at h
  subst h
  rfl

theorem runModels_cons_aborted (env : String → Nat → CallResult) (m0 : String)
    (ms : List String) (last : Option Exc) (e : Exc)
    (h : (runAttempts env m0 last [0, 1, 2]).1 = .aborted e) :
    runModels env last (m0 :: ms) =
      (.failure e, (runAttempts env m0 last [0, 1, 2]).2) := by
  simp only [runModels]
  rcases hr : runAttempts env m0 last [0, 1, 2] with ⟨out, evs⟩
  rw [hr] at h
  simp only at h
  subst h
  rfl

theorem runModels_cons_moveOn (env : String → Nat → CallResult) (m0 : String)
    (ms : List String) (last last2 : Option Exc)
    (h : (runAttempts env m0 last [0, 1, 2]).1 = .moveOn last2) :
    runModels env last (m0 :: ms) =
      ((runModels env last2 ms).1,
        (runAttempts env m0 last [0, 1, 2]).2 ++ (runModels env last2 ms).2) := by
  simp only [runModels]
  rcases hr : runAttempts env m0 last [0, 1, 2] with ⟨out, evs⟩
  rw [hr] at h
  simp only at h
  subst h
  rfl

theorem runModels_cons_success_fst (env : String → Nat → CallResult) (m0 : String)
    (ms : List String) (last : Option Exc) (t : String)
    (h : (runAttempts env m0 last [0, 1, 2]).1 = .success t) :
    (runModels env last (m0 :: ms)).1 = .success t := by
  rw [runModels_cons_success env m0 ms last t h]

theorem runModels_cons_success_snd (env : String → Nat → CallResult) (m0 : String)
    (ms : List String) (last : Option Exc) (t : String)
    (h : (runAttempts env m0 last [0, 1, 2]).1 = .success t) :
    (runModels env last (m0 :: ms)).2 = (runAttempts env m0 last [0, 1, 2]).2 := by
  rw [runModels_cons_success env m0 ms last t h]

theorem runModels_cons_aborted_fst (env : String → Nat → CallResult) (m0 : String)
    (ms : List String) (last : Option Exc) (e : Exc)
    (h : (runAttempts env m0 last [0, 1, 2]).1 = .aborted e) :
    (runModels env last (m0 :: ms)).1 = .failure e := by
  rw [runModels_cons_aborted env m0 ms last e h]

theorem runModels_cons_aborted_snd (env : String → Nat → CallResult) (m0 : String)
    (ms : List String) (last : Option Exc) (e : Exc)
    (h : (runAttempts env m0 last [0, 1, 2]).1 = .aborted e) :
    (runModels env last (m0 :: ms)).2 = (runAttempts env m0 last [0, 1, 2]).2 := by
  rw [runModels_cons_aborted env m0 ms last e h]

theorem runModels_cons_moveOn_fst (env : String → Nat → CallResult) (m0 : String)
    (ms : List String) (last last2 : Option Exc)
    (h : (runAttempts env m0 last [0, 1, 2]).1 = .moveOn last2) :
    (runModels env last (m0 :: ms)).1 = (runModels env last2 ms).1 := by
  rw [runModels_cons_moveOn env m0 ms last last2 h]

theorem runModels_cons_moveOn_snd (env : String → Nat → CallResult) (m0 : String)
    (ms : List String) (last last2 : Option Exc)
    (h : (runAttempts env m0 last [0, 1, 2]).1 = .moveOn last2) :
    (runModels env last (m0 :: ms)).2 =
      (runAttempts env m0 last [0, 1, 2]).2 ++ (runModels env last2 ms).2 := by
  rw [runModels_cons_moveOn env m0 ms last last2 h]

theorem runModels_mem_call (env : String → Nat → CallResult) :
    ∀ (models : List String) (last : Option Exc) (m : String) (a : Nat),
      Event.call m a ∈ (runModels env last models).2 → m ∈ models ∧ a < 3 := by
  intro models
  induction models with
  | nil => intro last m a h; simp [runModels] at h
  | cons m0 ms ih =>
    intro last m a h
    cases hout : (runAttempts env m0 last [0, 1, 2]).1 with
    | success t =>
      rw [runModels_cons_success_snd env m0 ms last t hout] at h
      obtain ⟨rfl, hmem⟩ := runAttempts_mem_call env m0 _ _ _ _ h
      exact ⟨List.mem_cons_self _ _, by simp at hmem; omega⟩
    | aborted e =>
      rw [runModels_cons_aborted_snd env m0 ms last e hout] at h
      obtain ⟨rfl, hmem⟩ := runAttempts_mem_call env m0 _ _ _ _ h
      exact ⟨List.mem_cons_self _ _, by simp at hmem; omega⟩
    | moveOn last2 =>
      rw [runModels_cons_moveOn_snd env m0 ms last last2 hout] at h
      rcases List.mem_append.mp h with h | h
      · obtain ⟨rfl, hmem⟩ := runAttempts_mem_call env m0 _ _ _ _ h
        exact ⟨List.mem_cons_self _ _, by simp at hmem; omega⟩
      · obtain ⟨hm, ha⟩ := ih last2 m a h
        exact ⟨List.mem_cons_of_mem _ hm, ha⟩

theorem runModels_shape (env : String → Nat → CallResult) (last : Option Exc)
    (models : List String) :
    (runModels env last models).2 = [] ∨
      ∃ m2 t2, (runModels env last models).2 = Event.call m2 0 :: t2 := by
  cases models with
  | nil => left; rfl
  | cons m0 ms =>
    right
    obtain ⟨t0, ht0⟩ := runAttempts_trace_head env m0 last 0 [1, 2]
    cases hout : (runAttempts env m0 last [0, 1, 2]).1 with
    | success t =>
      rw [runModels_cons_success_snd env m0 ms last t hout, ht0]
      exact ⟨m0, t0, rfl⟩
    | aborted e =>
      rw [runModels_cons_aborted_snd env m0 ms last e hout, ht0]
      exact ⟨m0, t0, rfl⟩
    | moveOn last2 =>
      rw [runModels_cons_moveOn_snd env m0 ms last last2 hout, ht0]
      exact ⟨m0, t0 ++ (runModels env last2 ms).2, rfl⟩

/-! ## Counting inference calls per model -/

theorem countCalls_le_length (m : String) (evs : List Event) :
    countCalls m evs ≤ evs.length :=
  List.length_filter_le _ _

theorem countCalls_sleep_cons (m : String) (d : Nat) (l : List Event) :
    countCalls m (Event.sleep d :: l) = countCalls m l := by
  simp [countCalls, List.filter_cons, isCallTo]

theorem countCalls_call_cons (m m2 : String) (a : Nat) (l : List Event) :
    countCalls m (Event.call m2 a :: l) ≤ countCalls m l + 1 := by
  simp only [countCalls, List.filter_cons]
  split
  · simp
  · exact Nat.le_succ _

theorem countCalls_append (m : String) (l1 l2 : List Event) :
    countCalls m (l1 ++ l2) = countCalls m l1 + countCalls m l2 := by
  simp [countCalls, List.filter_append]

theorem countCalls_eq_zero_of_not_mem {m : String} {evs : List Event}
    (h : ∀ a, Event.call m a ∉ evs) : countCalls m evs = 0 := by
  simp only [countCalls, List.length_eq_zero, List.filter_eq_nil_iff]
  intro e he
  cases e with
  | call m2 a2 =>
    simp only [isCallTo, beq_iff_eq]
    rintro rfl
    exact h a2 he
  | sleep d => simp [isCallTo]

theorem runAttempts_countCalls (env : String → Nat → CallResult) (model : String) :
    ∀ (attempts : List Nat) (last : Option Exc) (m : String),
      countCalls m ((runAttempts env model last attempts).2) ≤ attempts.length := by
  intro attempts
  induction attempts with
  | nil => intro last m; simp [runAttempts, countCalls]
  | cons a0 rest ih =>
    intro last m
    simp only [runAttempts]
    split
    · exact le_trans (countCalls_le_length _ _) (by simp)
    · split
      · exact le_trans (countCalls_le_length _ _) (by simp)
      · exact le_trans (countCalls_le_length _ _) (by simp)
      · split
        · refine le_trans (countCalls_call_cons _ _ _ _) ?_
          rw [countCalls_sleep_cons]
          simpa using Nat.add_le_add_right (ih _ m) 1
        · exact le_trans (countCalls_le_length _ _) (by simp)

theorem runModels_countCalls (env : String → Nat → CallResult) :
    ∀ (models : List String) (last : Option Exc) (m : String), models.Nodup →
      countCalls m ((runModels env last models).2) ≤ 3 := by
  intro models
  induction models with
  | nil => intro last m _; simp [runModels, countCalls]
  | cons m0 ms ih =>
    intro last m hnd
    cases hout : (runAttempts env m0 last [0, 1, 2]).1 with
    | success t =>
      rw [runModels_cons_success_snd env m0 ms last t hout]
      simpa using runAttempts_countCalls env m0 [0, 1, 2] last m
    | aborted e =>
      rw [runModels_cons_aborted_snd env m0 ms last e hout]
      simpa using runAttempts_countCalls env m0 [0, 1, 2] last m
    | moveOn last2 =>
      rw [runModels_cons_moveOn_snd env m0 ms last last2 hout, countCalls_append]
      by_cases hm : m = m0
      · have h0 : countCalls m ((runModels env last2 ms).2) = 0 := by
          refine countCalls_eq_zero_of_not_mem ?_
          intro a hmem
          exact (List.nodup_cons.mp hnd).1
            (hm ▸ (runModels_mem_call env ms last2 m a hmem).1)
        rw [h0]
        simpa using runAttempts_countCalls env m0 [0, 1, 2] last m
      · have h0 : countCalls m ((runAttempts env m0 last [0, 1, 2]).2) = 0 := by
          refine countCalls_eq_zero_of_not_mem ?_
          intro a hmem
          exact hm (runAttempts_mem_call env m0 _ _ _ _ hmem).1
        rw [h0]
        simpa using ih last2 m (List.nodup_cons.mp hnd).2

/-- Splitting a whole run's trace at a call whose outcome is decisive:
a success or an abort-classified failure terminate the run right there
with the corresponding result; a next-model-classified failure is
followed only by the remaining models' events — never a sleep, never
another call on the same model (when the candidate list has no
duplicates). -/
theorem runModels_split (env : String → Nat → CallResult) :
    ∀ (models : List String) (last : Option Exc) (pre : List Event) (m : String)
      (a : Nat) (tail : List Event),
      (runModels env last models).2 = pre ++ Event.call m a :: tail →
      ((∀ t, attemptOnce (env m a) = .ok t →
          tail = [] ∧ (runModels env last models).1 = .success t) ∧
       (∀ e, attemptOnce (env m a) = .error e → classify e = .abort →
          tail = [] ∧ (runModels env last models).1 = .failure e) ∧
       (∀ e, attemptOnce (env m a) = .error e → classify e = .nextModel →
          (models.Nodup → ∀ a2, Event.call m a2 ∉ tail) ∧
          (tail = [] ∨ ∃ m2 t2, tail = Event.call m2 0 :: t2))) := by
  intro models
  induction models with
  | nil =>
    intro last pre m a tail h
    simp only [runModels] at h
    simp at h
  | cons m0 ms ih =>
    intro last pre m a tail h
    cases hout : (runAttempts env m0 last [0, 1, 2]).1 with
    | success t0 =>
      rw [runModels_cons_success_snd env m0 ms last t0 hout] at h
      obtain ⟨rfl, -⟩ := runAttempts_mem_call env m0 _ _ _ _
        (by rw [h]; exact List.mem_append_right _ (List.mem_cons_self _ _))
      obtain ⟨hsp1, hsp2, hsp3⟩ := runAttempts_split env m [0, 1, 2] last pre a tail h
      refine ⟨?_, ?_, ?_⟩
      · intro t2 ht2
        obtain ⟨htail, hout2⟩ := hsp1 t2 ht2
        rw [hout] at hout2
        cases hout2
        exact ⟨htail, runModels_cons_success_fst env m ms last t0 hout⟩
      · intro e2 he2 hcl2
        obtain ⟨-, hout2⟩ := hsp2 e2 he2 hcl2
        rw [hout] at hout2
        cases hout2
      · intro e2 he2 hcl2
        obtain ⟨-, hout2⟩ := hsp3 e2 he2 hcl2
        rw [hout] at hout2
        cases hout2
    | aborted e0 =>
      rw [runModels_cons_aborted_snd env m0 ms last e0 hout] at h
      obtain ⟨rfl, -⟩ := runAttempts_mem_call env m0 _ _ _ _
        (by rw [h]; exact List.mem_append_right _ (List.mem_cons_self _ _))
      obtain ⟨hsp1, hsp2, hsp3⟩ := runAttempts_split env m [0, 1, 2] last pre a tail h
      refine ⟨?_, ?_, ?_⟩
      · intro t2 ht2
        obtain ⟨-, hout2⟩ := hsp1 t2 ht2
        rw [hout] at hout2
        cases hout2
      · intro e2 he2 hcl2
        obtain ⟨htail, hout2⟩ := hsp2 e2 he2 hcl2
        rw [hout] at hout2
        cases hout2
        exact ⟨htail, runModels_cons_aborted_fst env m ms last e0 hout⟩
      · intro e2 he2 hcl2
        obtain ⟨-, hout2⟩ := hsp3 e2 he2 hcl2
        rw [hout] at hout2
        cases hout2
    | moveOn last2 =>
      rw [runModels_cons_moveOn_snd env m0 ms last last2 hout] at h
      rcases List.append_eq_append_iff.mp h with ⟨mid, hpre, hrest⟩ | ⟨mid, hevs, hmid⟩
      · obtain ⟨ih1, ih2, ih3⟩ := ih last2 mid m a tail hrest
        refine ⟨?_, ?_, ?_⟩
        · intro t2 ht2
          obtain ⟨htail, hres⟩ := ih1 t2 ht2
          refine ⟨htail, ?_⟩
          rw [runModels_cons_moveOn_fst env m0 ms last last2 hout]
          exact hres
        · intro e2 he2 hcl2
          obtain ⟨htail, hres⟩ := ih2 e2 he2 hcl2
          refine ⟨htail, ?_⟩
          rw [runModels_cons_moveOn_fst env m0 ms last last2 hout]
          exact hres
        · intro e2 he2 hcl2
          obtain ⟨hnc, hshape⟩ := ih3 e2 he2 hcl2
          exact ⟨fun hnd => hnc (List.nodup_cons.mp hnd).2, hshape⟩
      · cases mid with
        | nil =>
          simp only [List.nil_append] at hmid
          obtain ⟨ih1, ih2, ih3⟩ := ih last2 [] m a tail (by simpa using hmid.symm)
          refine ⟨?_, ?_, ?_⟩
          · intro t2 ht2
            obtain ⟨htail, hres⟩ := ih1 t2 ht2
            refine ⟨htail, ?_⟩
            rw [runModels_cons_moveOn_fst env m0 ms last last2 hout]
            exact hres
          · intro e2 he2 hcl2
            obtain ⟨htail, hres⟩ := ih2 e2 he2 hcl2
            refine ⟨htail, ?_⟩
            rw [runModels_cons_moveOn_fst env m0 ms last last2 hout]
            exact hres
          · intro e2 he2 hcl2
            obtain ⟨hnc, hshape⟩ := ih3 e2 he2 hcl2
            exact ⟨fun hnd => hnc (List.nodup_cons.mp hnd).2, hshape⟩
        | cons q qs =>
          simp only [List.cons_append, List.cons.injEq] at hmid
          obtain ⟨hq, htail⟩ := hmid
          subst hq
          obtain ⟨rfl, -⟩ := runAttempts_mem_call env m0 _ _ _ _
            (by rw [hevs]; exact List.mem_append_right _ (List.mem_cons_self _ _))
          obtain ⟨hsp1, hsp2, hsp3⟩ :=
            runAttempts_split env m [0, 1, 2] last pre a qs hevs
          refine ⟨?_, ?_, ?_⟩
          · intro t2 ht2
            obtain ⟨-, hout2⟩ := hsp1 t2 ht2
            rw [hout] at hout2
            cases hout2
          · intro e2 he2 hcl2
            obtain ⟨-, hout2⟩ := hsp2 e2 he2 hcl2
            rw [hout] at hout2
            cases hout2
          · intro e2 he2 hcl2
            obtain ⟨hqs, -⟩ := hsp3 e2 he2 hcl2
            subst hqs
            simp only [List.nil_append] at htail
            constructor
            · intro hnd a2 hmem
              rw [htail] at hmem
              exact (List.nodup_cons.mp hnd).1
                ((runModels_mem_call env ms last2 _ a2 hmem).1)
            · rw [htail]
              exact runModels_shape env last2 ms

/-- One unfolding step of the inner loop in its retry-with-backoff
branch, for an attempt index below 2. -/
theorem runAttempts_cons_retry (env : String → Nat → CallResult) (model : String)
    (last : Option Exc) (a : Nat) (rest : List Nat) (e : Exc)
    (hc : attemptOnce (env model a) = .error e) (hd : classify e = .retry)
    (ha : a < 2) :
    runAttempts env model last (a :: rest) =
      ((runAttempts env model (some e) rest).1,
        Event.call model a :: Event.sleep (backoff_delays.getD a 0) ::
          (runAttempts env model (some e) rest).2) := by
  simp only [runAttempts, hc, hd, if_pos ha]

/-- On any attempt list that is non-empty and whose final attempt index
is not below 2 (so the `attempt < 2` retry guard cannot fire on the last
entry — as with `range(3)`), the inner loop's trace ends with a call
whose own outcome determines the loop outcome, and a fall-through always
carries `some` error. -/
theorem runAttempts_last_call (env : String → Nat → CallResult) (model : String) :
    ∀ (attempts : List Nat) (last : Option Exc), attempts ≠ [] →
      (∀ al, attempts.getLast? = some al → ¬ al < 2) →
      ∃ pre a, (runAttempts env model last attempts).2 = pre ++ [Event.call model a] ∧
        (∀ t, (runAttempts env model last attempts).1 = .success t →
            attemptOnce (env model a) = .ok t) ∧
        (∀ e, (runAttempts env model last attempts).1 = .aborted e →
            attemptOnce (env model a) = .error e) ∧
        (∀ l2, (runAttempts env model last attempts).1 = .moveOn l2 →
            ∃ e, l2 = some e ∧ attemptOnce (env model a) = .error e) := by
  intro attempts
  induction attempts with
  | nil => intro last h; exact absurd rfl h
  | cons a0 rest ih =>
    intro last _ hlast
    rcases hc : attemptOnce (env model a0) with e0 | t0
    · rcases hd : classify e0 with _ | _ | _
      · refine ⟨[], a0, by simp [runAttempts, hc, hd], ?_, ?_, ?_⟩
        · intro t ht
          simp only [runAttempts, hc, hd] at ht
          cases ht
        · intro e he
          simp only [runAttempts, hc, hd] at he
          cases he
          exact hc
        · intro l2 hl
          simp only [runAttempts, hc, hd] at hl
          cases hl
      · refine ⟨[], a0, by simp [runAttempts, hc, hd], ?_, ?_, ?_⟩
        · intro t ht
          simp only [runAttempts, hc, hd] at ht
          cases ht
        · intro e he
          simp only [runAttempts, hc, hd] at he
          cases he
        · intro l2 hl
          simp only [runAttempts, hc, hd] at hl
          cases hl
          exact ⟨e0, rfl, hc⟩
      · by_cases ha0 : a0 < 2
        · have hrest : rest ≠ [] := by
            intro hr
            subst hr
            exact hlast a0 rfl ha0
          obtain ⟨r, rs, rfl⟩ := List.exists_cons_of_ne_nil hrest
          obtain ⟨pre, a, htr, h1, h2, h3⟩ :=
            ih (some e0) (by simp) (by intro al hal; exact hlast al (by simpa using hal))
          have hstep := runAttempts_cons_retry env model last a0 (r :: rs) e0 hc hd ha0
          refine ⟨Event.call model a0 :: Event.sleep (backoff_delays.getD a0 0) :: pre,
            a, ?_, ?_, ?_, ?_⟩
          · rw [hstep]
            simp [htr]
          · intro t ht
            rw [hstep] at ht
            exact h1 t ht
          · intro e he
            rw [hstep] at he
            exact h2 e he
          · intro l2 hl
            rw [hstep] at hl
            exact h3 l2 hl
        · refine ⟨[], a0, by simp [runAttempts, hc, hd, if_neg ha0], ?_, ?_, ?_⟩
          · intro t ht
            simp only [runAttempts, hc, hd, if_neg ha0] at ht
            cases ht
          · intro e he
            simp only [runAttempts, hc, hd, if_neg ha0] at he
            cases he
          · intro l2 hl
            simp only [runAttempts, hc, hd, if_neg ha0] at hl
            cases hl
            exact ⟨e0, rfl, hc⟩
    · refine ⟨[], a0, by simp [runAttempts, hc], ?_, ?_, ?_⟩
      · intro t ht
        simp only [runAttempts, hc] at ht
        cases ht
        exact hc
      · intro e he
        simp only [runAttempts, hc] at he
        cases he
      · intro l2 hl
        simp only [runAttempts, hc] at hl
        cases hl

/-- A run over a non-empty candidate list never ends with the generic
"exhausted" result, and when it ends by raising a failure that failure
is exactly the error of the last call in the trace. -/
theorem runModels_terminal (env : String → Nat → CallResult) :
    ∀ (models : List String) (last : Option Exc), models ≠ [] →
      (runModels env last models).1 ≠ .exhausted ∧
      ∀ e, (runModels env last models).1 = .failure e →
        ∃ pre m a, (runModels env last models).2 = pre ++ [Event.call m a] ∧
          attemptOnce (env m a) = .error e := by
  intro models
  induction models with
  | nil => intro last h; exact absurd rfl h
  | cons m0 ms ih =>
    intro last _
    obtain ⟨pre0, a0, htr, hS, hA, hM⟩ :=
      runAttempts_last_call env m0 [0, 1, 2] last (by simp)
        (by intro al hal; rw [show ([0, 1, 2] : List Nat).getLast? = some 2 from rfl]
              at hal; cases hal; omega)
    cases hout : (runAttempts env m0 last [0, 1, 2]).1 with
    | success t =>
      have hfst := runModels_cons_success_fst env m0 ms last t hout
      refine ⟨by rw [hfst]; simp, ?_⟩
      intro e hfail
      rw [hfst] at hfail
      cases hfail
    | aborted e0 =>
      have hfst := runModels_cons_aborted_fst env m0 ms last e0 hout
      refine ⟨by rw [hfst]; simp, ?_⟩
      intro e hfail
      rw [hfst] at hfail
      cases hfail
      refine ⟨pre0, m0, a0, ?_, hA e0 hout⟩
      rw [runModels_cons_aborted_snd env m0 ms last e0 hout]
      exact htr
    | moveOn last2 =>
      obtain ⟨e2, rfl, hatt⟩ := hM last2 hout
      have hfst := runModels_cons_moveOn_fst env m0 ms last (some e2) hout
      have hsnd := runModels_cons_moveOn_snd env m0 ms last (some e2) hout
      cases ms with
      | nil =>
        have hbase : (runModels env (some e2) ([] : List String)).1 = .failure e2 := rfl
        refine ⟨by rw [hfst, hbase]; simp, ?_⟩
        intro e hfail
        rw [hfst, hbase] at hfail
        cases hfail
        refine ⟨pre0, m0, a0, ?_, hatt⟩
        rw [hsnd]
        simp [runModels, htr]
      | cons m1 ms1 =>
        obtain ⟨hne, hfail⟩ := ih (some e2) (by simp)
        refine ⟨by rw [hfst]; exact hne, ?_⟩
        intro e he
        rw [hfst] at he
        obtain ⟨pre, m, aa, htr2, hatt2⟩ := hfail e he
        refine ⟨(runAttempts env m0 last [0, 1, 2]).2 ++ pre, m, aa, ?_, hatt2⟩
        rw [hsnd, htr2, List.append_assoc]

/-! ## Parsing of a 2xx body -/

theorem pyStrip_empty : pyStrip "" = "" := rfl

/-- A well-shaped body whose `content` is the string `s`. -/
def contentBody (s : String) : Json :=
  .obj [("choices", .arr [.obj [("message", .obj [("content", .str s)])]])]

/-- A body whose `message` is a (truthy) dict with no `content` key. -/
def missingContentBody : Json :=
  .obj [("choices", .arr [.obj [("message", .obj [("role", .str "assistant")])]])]

theorem extractText_contentBody (s : String) :
    extractText (contentBody s) = .ok (pyStrip s) := by
  by_cases hempty : s = ""
  · subst hempty; rfl
  · simp [extractText, contentBody, Json.get?, orDefault, Json.truthy, List.find?,
      hempty]

theorem attemptOnce_ok_shape (cr : CallResult) (t : String)
    (h : attemptOnce cr = .ok t) :
    t ≠ "" ∧ ∃ body, extractText body = .ok t := by
  cases cr with
  | raised e => simp [attemptOnce] at h
  | response status body =>
    simp only [attemptOnce] at h
    by_cases h1 : 400 ≤ status ∧ status < 600
    · rw [if_pos h1] at h; cases h
    · rw [if_neg h1] at h
      by_cases h2 : (body.isObj && ((body.get? "error").getD Json.null).truthy) = true
      · rw [if_pos h2] at h; cases h
      · rw [if_neg h2] at h
        rcases hext : extractText body with u | t2
        · simp [hext] at h
        · simp only [hext] at h
          by_cases hne : t2 = ""
          · rw [if_pos hne] at h; cases h
          · rw [if_neg hne] at h
            cases h
            exact ⟨hne, body, hext⟩

theorem extractText_ok_shape (body : Json) (t : String)
    (h : extractText body = .ok t) : t = "" ∨ ∃ s, t = pyStrip s := by
  unfold extractText at h
  split at h
  · split at h
    · cases h
      exact Or.inl rfl
    · split at h
      · split at h
        · split at h
          · cases h
            exact Or.inr ⟨_, rfl⟩
          · cases h
        · cases h
      · cases h
    · cases h
  · cases h
    exact Or.inl rfl

/-- C8: a 2xx response whose JSON dict body carries a truthy `error`
field is turned into the `RuntimeError` failure — never a success — and
that failure is classified transient, i.e. eligible for retry with
backoff. -/
theorem C8_error_field_is_transient (status : Nat) (body : Json)
    (h2 : 200 ≤ status) (h3 : status < 300)
    (hobj : body.isObj = true)
    (herr : ((body.get? "error").getD Json.null).truthy = true) :
    attemptOnce (.response status body) = .error .runtimeError ∧
      classify .runtimeError = .retry := by
  have hrange : ¬ (400 ≤ status ∧ status < 600) := by omega
  refine ⟨?_, rfl⟩
  simp [attemptOnce, hrange, hobj, herr]

/-- C8 witness: status 200 with body `{"error": "boom"}`. -/
theorem C8_error_field_is_transient_witness :
    attemptOnce (.response 200 (.obj [("error", .str "boom")])) =
        .error .runtimeError ∧
      classify .runtimeError = .retry :=
  C8_error_field_is_transient 200 (.obj [("error", .str "boom")])
    (by decide) (by decide) (by decide) (by decide)

theorem runAttempts_success_source (env : String → Nat → CallResult)
    (model : String) :
    ∀ (attempts : List Nat) (last : Option Exc) (t : String),
      (runAttempts env model last attempts).1 = .success t →
      ∃ a, attemptOnce (env model a) = .ok t := by
  intro attempts
  induction attempts with
  | nil => intro last t h; simp [runAttempts] at h
  | cons a0 rest ih =>
    intro last t h
    rcases hc : attemptOnce (env model a0) with e0 | t0
    · rcases hd : classify e0 with _ | _ | _
      · simp [runAttempts, hc, hd] at h
      · simp [runAttempts, hc, hd] at h
      · by_cases ha0 : a0 < 2
        · rw [runAttempts_cons_retry env model last a0 rest e0 hc hd ha0] at h
          exact ih (some e0) t h
        · simp [runAttempts, hc, hd, ha0] at h
    · simp only [runAttempts, hc] at h
      cases h
      exact ⟨a0, hc⟩

theorem runModels_success_source (env : String → Nat → CallResult) :
    ∀ (models : List String) (last : Option Exc) (t : String),
      (runModels env last models).1 = .success t →
      ∃ m a, attemptOnce (env m a) = .ok t := by
  intro models
  induction models with
  | nil =>
    intro last t h
    cases last <;> simp [runModels] at h
  | cons m0 ms ih =>
    intro last t h
    cases hout : (runAttempts env m0 last [0, 1, 2]).1 with
    | success t0 =>
      rw [runModels_cons_success_fst env m0 ms last t0 hout] at h
      cases h
      obtain ⟨a, ha⟩ := runAttempts_success_source env m0 [0, 1, 2] last t hout
      exact ⟨m0, a, ha⟩
    | aborted e0 =>
      rw [runModels_cons_aborted_fst env m0 ms last e0 hout] at h
      cases h
    | moveOn last2 =>
      rw [runModels_cons_moveOn_fst env m0 ms last last2 hout] at h
      exact ih last2 t h

/-- C4: a 2xx response whose extracted text is empty — `content` absent,
empty, or whitespace-only — becomes the `ValueError` ("empty response")
failure, classified for retry exactly like any other failed call; and
every text a run returns as success is non-empty and is the stripped
`content` of some response body. -/
theorem C4_empty_text_is_failure :
    (∀ (status : Nat) (body : Json), 200 ≤ status → status < 300 →
        ((body.get? "error").getD Json.null).truthy = false →
        extractText body = .ok "" →
        attemptOnce (.response status body) = .error .valueError ∧
          classify .valueError = .retry) ∧
    (∀ s, pyStrip s = "" → extractText (contentBody s) = .ok "") ∧
    extractText missingContentBody = .ok "" ∧
    (∀ (env : String → Nat → CallResult) (models : List String) (t : String),
        (generateRun env models).1 = .success t →
        t ≠ "" ∧ ∃ s, t = pyStrip s) := by
  refine ⟨?_, ?_, by rfl, ?_⟩
  · intro status body h2 h3 herr hext
    have hrange : ¬ (400 ≤ status ∧ status < 600) := by omega
    refine ⟨?_, rfl⟩
    simp [attemptOnce, hrange, herr, hext]
  · intro s hs
    rw [extractText_contentBody s, hs]
  · intro env models t h
    obtain ⟨m, a, ha⟩ := runModels_success_source env models none t h
    obtain ⟨hne, body, hext⟩ := attemptOnce_ok_shape (env m a) t ha
    refine ⟨hne, ?_⟩
    rcases extractText_ok_shape body t hext with rfl | hsome
    · exact absurd rfl hne
    · exact hsome

/-- The malformed-for-the-expected-shape bodies of C9: not a dict;
`choices` missing or an empty list; `message` missing from the first
choice; or `content` missing from the message. -/
def malformedBody (body : Json) : Prop :=
  body.isObj = false ∨
  (body.isObj = true ∧ body.get? "choices" = none) ∨
  body.get? "choices" = some (.arr []) ∨
  (∃ c0 rest2, body.get? "choices" = some (.arr (c0 :: rest2)) ∧ c0.isObj = true ∧
    c0.get? "message" = none) ∨
  (∃ c0 rest2 msg, body.get? "choices" = some (.arr (c0 :: rest2)) ∧
    c0.get? "message" = some msg ∧ msg.isObj = true ∧ msg.get? "content" = none)

theorem get?_isObj {body : Json} {k : String} {v : Json}
    (h : body.get? k = some v) : body.isObj = true := by
  cases body <;> first | rfl | simp [Json.get?] at h

/-- The tail of `extractText` from the first choice onwards. -/
def extractFromChoice (c0 : Json) : Except Unit String :=
  match c0 with
  | .obj _ =>
    match orDefault (c0.get? "message") (.obj []) with
    | .obj msgFields =>
      match orDefault ((Json.obj msgFields).get? "content") (.str "") with
      | .str s => .ok (pyStrip s)
      | _ => .error ()
    | _ => .error ()
  | _ => .error ()

/-- Evaluation step: on a dict whose (truthy) `choices` is a non-empty
list, extraction proceeds with the first element. -/
theorem extractText_step (fields : List (String × Json)) (c0 : Json)
    (r2 : List Json)
    (hch : (Json.obj fields).get? "choices" = some (.arr (c0 :: r2))) :
    extractText (Json.obj fields) = extractFromChoice c0 := by
  simp only [extractText, extractFromChoice]
  rw [hch]
  simp [orDefault, Json.truthy]

/-- C9: on every malformed body the extraction is total — it produces
the empty text rather than raising — so a 2xx response with such a body
(and no truthy `error` field) uniformly becomes the `ValueError`
failure, which is classified for the transient retry path. -/
theorem C9_malformed_body_total (status : Nat) (body : Json)
    (h2 : 200 ≤ status) (h3 : status < 300)
    (herr : ((body.get? "error").getD Json.null).truthy = false)
    (hm : malformedBody body) :
    extractText body = .ok "" ∧
    attemptOnce (.response status body) = .error .valueError ∧
    classify .valueError = .retry := by
  have hext : extractText body = .ok "" := by
    rcases hm with h | ⟨hobj, hch⟩ | hch | ⟨c0, r2, hch, hc0, hmsg⟩ |
      ⟨c0, r2, msg, hch, hmsg, hmobj, hcont⟩
    · cases body <;> simp_all [extractText, Json.isObj]
    · cases body <;> simp_all [extractText, Json.isObj, orDefault]
    · have hobj := get?_isObj hch
      cases body <;> simp_all [extractText, Json.isObj, orDefault, Json.truthy]
    · have hobj := get?_isObj hch
      cases body
      case obj fields =>
        rw [extractText_step fields c0 r2 hch]
        cases c0
        case obj cfields =>
          simp only [extractFromChoice]
          rw [hmsg]
          simp [orDefault, Json.get?, pyStrip_empty]
        all_goals simp [Json.isObj] at hc0
      all_goals simp [Json.isObj] at hobj
    · have hobj := get?_isObj hch
      have hc0obj := get?_isObj hmsg
      cases body
      case obj fields =>
        rw [extractText_step fields c0 r2 hch]
        cases c0
        case obj cfields =>
          simp only [extractFromChoice]
          rw [hmsg]
          cases msg
          case obj mfields =>
            cases mfields with
            | nil =>
              simp [orDefault, Json.truthy, Json.get?, pyStrip_empty]
            | cons kv mrest =>
              simp [orDefault, Json.truthy, hcont, pyStrip_empty]
          all_goals simp [Json.isObj] at hmobj
        all_goals simp [Json.isObj] at hc0obj
      all_goals simp [Json.isObj] at hobj
  have hrange : ¬ (400 ≤ status ∧ status < 600) := by omega
  refine ⟨hext, ?_, rfl⟩
  simp [attemptOnce, hrange, herr, hext]

/-- C9 witness: the five malformed shapes evaluated concretely —
here a body whose first choice has no `message` key. -/
theorem C9_malformed_body_total_witness :
    extractText (.obj [("choices", .arr [.obj [("index", .num 0)]])]) = .ok "" ∧
    attemptOnce (.response 200
        (.obj [("choices", .arr [.obj [("index", .num 0)]])])) =
      .error .valueError ∧
    classify .valueError = .retry :=
  C9_malformed_body_total 200 (.obj [("choices", .arr [.obj [("index", .num 0)]])])
    (by decide) (by decide) (by decide)
    (Or.inr (Or.inr (Or.inr (Or.inl
      ⟨.obj [("index", .num 0)], [], rfl, rfl, rfl⟩))))

/-- C4 witness: a whitespace-only `content` on a 200 response becomes the
retry-classified `ValueError`. -/
theorem C4_empty_text_is_failure_witness :
    attemptOnce (.response 200 (contentBody "   ")) = .error .valueError ∧
      classify .valueError = .retry :=
  C4_empty_text_is_failure.1 200 (contentBody "   ") (by decide) (by decide)
    (by decide) rfl

/-! ## Claim theorems about the retry orchestrator -/

/-- C1: a failure carrying HTTP status 401 or 403 on any attempt of any
model immediately terminates the whole run by propagating that failure:
the 401/403 call is the last event of the trace (no further attempt on
the current model, no remaining candidate model is tried) and the run's
result is exactly that `HTTPError`. -/
theorem C1_auth_error_aborts_run (env : String → Nat → CallResult)
    (models : List String) (pre : List Event) (m : String) (a : Nat)
    (tail : List Event) (s : Nat)
    (h : (generateRun env models).2 = pre ++ Event.call m a :: tail)
    (hs : attemptOnce (env m a) = .error (.httpError (some s)))
    (h401 : s = 401 ∨ s = 403) :
    tail = [] ∧ (generateRun env models).1 = .failure (.httpError (some s)) := by
  have hcl : classify (.httpError (some s)) = .abort := by
    rcases h401 with rfl | rfl <;> decide
  exact (runModels_split env models none pre m a tail h).2.1 _ hs hcl

def envC1 : String → Nat → CallResult := fun m a =>
  if m = "A" ∧ a = 1 then .response 401 .null else .raised .timeoutError

/-- C1 witness: a 401 on attempt 1 of model A, with model B still
pending, ends the run at that call with the 401 failure. -/
theorem C1_auth_error_aborts_run_witness :
    ([] : List Event) = [] ∧
      (generateRun envC1 ["A", "B"]).1 = .failure (.httpError (some 401)) :=
  C1_auth_error_aborts_run envC1 ["A", "B"] [.call "A" 0, .sleep 2] "A" 1 [] 401
    (by decide) rfl (Or.inl rfl)

/-- C2: a failure carrying HTTP status 404 or 410 makes the orchestrator
abandon that model at once: in a duplicate-free candidate list the
404/410 call is never followed by a backoff sleep (the next event, if
any, is attempt 0 of another model) nor by any further call on the same
model. -/
theorem C2_model_unavailable_skips (env : String → Nat → CallResult)
    (models : List String) (pre : List Event) (m : String) (a : Nat)
    (tail : List Event) (s : Nat)
    (hnd : models.Nodup)
    (h : (generateRun env models).2 = pre ++ Event.call m a :: tail)
    (hs : attemptOnce (env m a) = .error (.httpError (some s)))
    (h404 : s = 404 ∨ s = 410) :
    (∀ a2, Event.call m a2 ∉ tail) ∧
    (tail = [] ∨ ∃ m2 t2, tail = Event.call m2 0 :: t2) := by
  have hcl : classify (.httpError (some s)) = .nextModel := by
    rcases h404 with rfl | rfl <;> decide
  obtain ⟨hnc, hshape⟩ := (runModels_split env models none pre m a tail h).2.2 _ hs hcl
  exact ⟨hnc hnd, hshape⟩

def envC2 : String → Nat → CallResult := fun m _ =>
  if m = "A" then .response 404 .null else .raised .timeoutError

/-- C2 witness: a 404 on attempt 0 of model A moves straight to model B's
attempt 0 — no sleep in between and no later call on A. -/
theorem C2_model_unavailable_skips_witness :
    (∀ a2, Event.call "A" a2 ∉
        ([.call "B" 0, .sleep 2, .call "B" 1, .sleep 4, .call "B" 2] :
          List Event)) ∧
    (([.call "B" 0, .sleep 2, .call "B" 1, .sleep 4, .call "B" 2] :
        List Event) = [] ∨
      ∃ m2 t2,
        ([.call "B" 0, .sleep 2, .call "B" 1, .sleep 4, .call "B" 2] :
          List Event) = Event.call m2 0 :: t2) :=
  C2_model_unavailable_skips envC2 ["A", "B"] [] "A" 0
    [.call "B" 0, .sleep 2, .call "B" 1, .sleep 4, .call "B" 2] 404
    (by decide) (by decide) rfl (Or.inl rfl)

/-- C3: with a single candidate model whose three attempts all fail with
retry-classified (transient) failures, the run's trace is exactly call,
2-second sleep, call, 4-second sleep, call — two backoff waits, none
after the last attempt — and the run terminates by raising the third
failure. -/
theorem C3_single_model_backoff (env : String → Nat → CallResult) (m : String)
    (e0 e1 e2 : Exc)
    (h0 : attemptOnce (env m 0) = .error e0) (hc0 : classify e0 = .retry)
    (h1 : attemptOnce (env m 1) = .error e1) (hc1 : classify e1 = .retry)
    (h2 : attemptOnce (env m 2) = .error e2) (hc2 : classify e2 = .retry) :
    generateRun env [m] =
      (.failure e2, [.call m 0, .sleep 2, .call m 1, .sleep 4, .call m 2]) := by
  have hst2 : runAttempts env m (some e1) [2] = (.moveOn (some e2), [.call m 2]) := by
    simp [runAttempts, h2, hc2]
  have hA : runAttempts env m none [0, 1, 2] =
      (.moveOn (some e2), [.call m 0, .sleep 2, .call m 1, .sleep 4, .call m 2]) := by
    rw [runAttempts_cons_retry env m none 0 [1, 2] e0 h0 hc0 (by decide),
      runAttempts_cons_retry env m (some e0) 1 [2] e1 h1 hc1 (by decide), hst2]
    rfl
  have hfst : (runAttempts env m none [0, 1, 2]).1 = .moveOn (some e2) := by rw [hA]
  have hmv := runModels_cons_moveOn env m [] none (some e2) hfst
  simp only [generateRun]
  rw [hmv, hA]
  simp [runModels]

/-- C3 witness: three timeouts on the only candidate model. -/
theorem C3_single_model_backoff_witness :
    generateRun (fun _ _ => CallResult.raised .timeoutError) ["A"] =
      (.failure .timeoutError,
        [.call "A" 0, .sleep 2, .call "A" 1, .sleep 4, .call "A" 2]) :=
  C3_single_model_backoff (fun _ _ => CallResult.raised .timeoutError) "A"
    .timeoutError .timeoutError .timeoutError rfl rfl rfl rfl rfl rfl

/-- C6: over a duplicate-free candidate list, every model is called at
most 3 times, every call's attempt index is below the budget of 3, and a
call that succeeds is the last event of the run — no backoff sleep and
no further attempt or model after it — with the run returning that
call's text. -/
theorem C6_budget_and_immediate_success (env : String → Nat → CallResult)
    (models : List String) (hnd : models.Nodup) :
    (∀ m, countCalls m (generateRun env models).2 ≤ 3) ∧
    (∀ m a, Event.call m a ∈ (generateRun env models).2 → a < 3) ∧
    (∀ pre m a tail t,
        (generateRun env models).2 = pre ++ Event.call m a :: tail →
        attemptOnce (env m a) = .ok t →
        tail = [] ∧ (generateRun env models).1 = .success t) :=
  ⟨fun m => runModels_countCalls env models none m hnd,
   fun m a hmem => (runModels_mem_call env models none m a hmem).2,
   fun pre m a tail t h ht => (runModels_split env models none pre m a tail h).1 t ht⟩

def envC6 : String → Nat → CallResult := fun _ _ =>
  .response 200 (contentBody " You are doing well. ")

/-- C6 witness: the invariants instantiated on a first-attempt success. -/
theorem C6_budget_and_immediate_success_witness :
    (∀ m, countCalls m (generateRun envC6 ["A", "B"]).2 ≤ 3) ∧
    (∀ m a, Event.call m a ∈ (generateRun envC6 ["A", "B"]).2 → a < 3) ∧
    (∀ pre m a tail t,
        (generateRun envC6 ["A", "B"]).2 = pre ++ Event.call m a :: tail →
        attemptOnce (envC6 m a) = .ok t →
        tail = [] ∧ (generateRun envC6 ["A", "B"]).1 = .success t) :=
  C6_budget_and_immediate_success envC6 ["A", "B"] (by decide)

/-- C7: on a non-empty candidate list a run never ends with the generic
"exhausted" fallback (which would need `last_error` to still be `None`),
and a failing run raises the last observed failure — the error of the
final call in its trace. -/
theorem C7_exhaustion_raises_last_failure (env : String → Nat → CallResult)
    (models : List String) (hne : models ≠ []) :
    (generateRun env models).1 ≠ .exhausted ∧
    ∀ e, (generateRun env models).1 = .failure e →
      ∃ pre m a, (generateRun env models).2 = pre ++ [Event.call m a] ∧
        attemptOnce (env m a) = .error e :=
  runModels_terminal env models none hne

/-- C7 witness: a run of connection errors over the single model list. -/
theorem C7_exhaustion_raises_last_failure_witness :
    (generateRun (fun _ _ => CallResult.raised .connectionError) ["A"]).1 ≠
        .exhausted ∧
    ∀ e, (generateRun (fun _ _ => CallResult.raised .connectionError) ["A"]).1 =
        .failure e →
      ∃ pre m a,
        (generateRun (fun _ _ => CallResult.raised .connectionError) ["A"]).2 =
          pre ++ [Event.call m a] ∧
        attemptOnce ((fun _ _ => CallResult.raised .connectionError) m a) =
          .error e :=
  C7_exhaustion_raises_last_failure
    (fun _ _ => CallResult.raised .connectionError) ["A"] (by simp)

/-- C10: an `HTTPError` carrying no response object (status unknown) is
classified transient — neither an abort nor a skip to the next model —
so a model whose attempts all fail that way is retried with the 2s and
4s backoffs through the full budget and only then abandoned to the next
model. -/
theorem C10_statusless_http_error_transient (env : String → Nat → CallResult)
    (m : String) (last : Option Exc)
    (h : ∀ a, a < 3 → attemptOnce (env m a) = .error (.httpError none)) :
    classify (.httpError none) = .retry ∧
    classify (.httpError none) ≠ .abort ∧
    classify (.httpError none) ≠ .nextModel ∧
    runAttempts env m last [0, 1, 2] =
      (.moveOn (some (.httpError none)),
        [.call m 0, .sleep 2, .call m 1, .sleep 4, .call m 2]) := by
  refine ⟨rfl, by decide, by decide, ?_⟩
  have hst2 : runAttempts env m (some (.httpError none)) [2] =
      (.moveOn (some (.httpError none)), [.call m 2]) := by
    simp [runAttempts, classify, h 2 (by decide)]
  rw [runAttempts_cons_retry env m last 0 [1, 2] _ (h 0 (by decide)) rfl (by decide),
    runAttempts_cons_retry env m (some (.httpError none)) 1 [2] _ (h 1 (by decide))
      rfl (by decide), hst2]
  rfl

/-- C10 witness: a model whose every call raises a response-less
`HTTPError`. -/
theorem C10_statusless_http_error_transient_witness :
    classify (.httpError none) = .retry ∧
    classify (.httpError none) ≠ .abort ∧
    classify (.httpError none) ≠ .nextModel ∧
    runAttempts (fun _ _ => CallResult.raised (.httpError none)) "A" none
        [0, 1, 2] =
      (.moveOn (some (.httpError none)),
        [.call "A" 0, .sleep 2, .call "A" 1, .sleep 4, .call "A" 2]) :=
  C10_statusless_http_error_transient
    (fun _ _ => CallResult.raised (.httpError none)) "A" none (fun _ _ => rfl)

example :
    (generateRun (fun _ _ => .raised .timeoutError) ["A"]).2 =
      [.call "A" 0, .sleep 2, .call "A" 1, .sleep 4, .call "A" 2] := by
  decide

example :
    (generateRun (fun _ _ => .response 401 .null) ["A", "B"]) =
      (.failure (.httpError (some 401)), [.call "A" 0]) := by
  decide

example :
    (generateRun (fun m _ => if m = "A" then .response 404 .null
        else .response 200 (.obj [("choices", .arr [.obj [("message",
          .obj [("content", .str " hi ")])]])])) ["A", "B"]) =
      (.success "hi", [.call "A" 0, .call "B" 0]) := by
  decide

end LiveMood
